import Mathlib

/-!
Verification of the spa-version-proxy request pipeline.

The development shallowly embeds the Go program: the path algebra used by
the middleware (Go stdlib functions path.Clean, path.Join, path.Ext and
url.PathEscape, exactly as the program calls them), the VersionSwitch /
AppRewrite middleware, the fetch-on-miss fileServer, and the ProxyPaths
dev-prefix forwarder.  HTTP wire (de)serialization (http.ReadResponse /
Response.Write) is abstracted as a parse/serialize pair carried by the
file-server model; everything else is executable.
-/

set_option autoImplicit false

namespace SpaProxy

/-! ## Go stdlib path model

The Go standard library's path.Clean processes a path as a sequence of
slash-separated segments over a lazy output buffer.  We model the same
algorithm with an explicit segment list and an output stack (most recent
segment first), which is extensionally the lazybuf algorithm.
-/

/-- The literal parent-directory segment. -/
def dd : List Char := ['.', '.']

/-- Prepend a character onto the first segment of a segment list. -/
def consHead (c : Char) : List (List Char) → List (List Char)
  | [] => [[c]]
  | seg :: rest => (c :: seg) :: rest

/-- Split a character list on slashes; mirrors how Go's path.Clean walks
slash-separated elements (an empty input yields one empty segment). -/
def splitSlash : List Char → List (List Char)
  | [] => [[]]
  | c :: cs => if c = '/' then [] :: splitSlash cs else consHead c (splitSlash cs)

/-- The element-processing loop of Go's path.Clean: empty and dot segments
are dropped, a dotdot segment pops the stack (or, in an unrooted path with
nothing left to pop, accumulates at the bottom), and any other segment is
pushed.  The stack holds output segments most-recent-first. -/
def cleanLoop (rooted : Bool) : List (List Char) → List (List Char) → List (List Char)
  | [], stack => stack
  | seg :: rest, stack =>
    if seg = [] ∨ seg = ['.'] then
      cleanLoop rooted rest stack
    else if seg = dd then
      match stack with
      | top :: stack' =>
        if rooted then cleanLoop rooted rest stack'
        else if top = dd then cleanLoop rooted rest (dd :: top :: stack')
        else cleanLoop rooted rest stack'
      | [] =>
        if rooted then cleanLoop rooted rest []
        else cleanLoop rooted rest [dd]
    else cleanLoop rooted rest (seg :: stack)

/-- Join segments with slashes (Go's lazybuf rendering order). -/
def intercalateSlash : List (List Char) → List Char
  | [] => []
  | [seg] => seg
  | seg :: rest => seg ++ '/' :: intercalateSlash rest

/-- Go path.Clean on character lists. -/
def cleanChars : List Char → List Char
  | [] => ['.']
  | c :: cs =>
    let rooted : Bool := c == '/'
    let stack := cleanLoop rooted (splitSlash (c :: cs)) []
    if rooted then '/' :: intercalateSlash stack.reverse
    else if stack = [] then ['.']
    else intercalateSlash stack.reverse

/-- Go path.Clean. -/
def pathClean (s : String) : String := ⟨cleanChars s.data⟩

/-- Go path.Join restricted to two elements, as called by the program:
empty elements are skipped, the rest joined with a slash and cleaned. -/
def pathJoin (a b : String) : String :=
  if a = "" then (if b = "" then "" else pathClean b)
  else pathClean (a ++ "/" ++ b)

/-- The scan of Go path.Ext over the reversed path: collect trailing
characters; a dot ends the extension (dot included), a slash or the start
of the string means no extension. -/
def extFrom : List Char → List Char → List Char
  | _, [] => []
  | acc, c :: rest =>
    if c = '/' then []
    else if c = '.' then c :: acc
    else extFrom (c :: acc) rest

/-- Go path.Ext: the suffix of the final slash-separated element starting
at its final dot, empty when there is none. -/
def pathExt (s : String) : String := ⟨extFrom [] s.data.reverse⟩

/-! ## Go url.PathEscape model

url.PathEscape escapes a string so it can be placed inside a URL path
segment (mode encodePathSegment of net/url's shouldEscape).  Go works on
the UTF-8 bytes of the string; unescaped bytes are all ASCII, and every
byte of a multi-byte character is >= 0x80 and hence percent-escaped, so
escaping characterwise over the character's UTF-8 bytes is faithful.
-/

/-- The bytes of a character's UTF-8 encoding. -/
def utf8Bytes (c : Char) : List Nat :=
  let n := c.toNat
  if n < 0x80 then [n]
  else if n < 0x800 then [0xC0 + n / 0x40, 0x80 + n % 0x40]
  else if n < 0x10000 then
    [0xE0 + n / 0x1000, 0x80 + (n / 0x40) % 0x40, 0x80 + n % 0x40]
  else
    [0xF0 + n / 0x40000, 0x80 + (n / 0x1000) % 0x40, 0x80 + (n / 0x40) % 0x40, 0x80 + n % 0x40]

/-- Uppercase hexadecimal digit, as in net/url's escape table. -/
def hexDigitUpper (n : Nat) : Char :=
  if n = 0 then '0' else if n = 1 then '1' else if n = 2 then '2'
  else if n = 3 then '3' else if n = 4 then '4' else if n = 5 then '5'
  else if n = 6 then '6' else if n = 7 then '7' else if n = 8 then '8'
  else if n = 9 then '9' else if n = 10 then 'A' else if n = 11 then 'B'
  else if n = 12 then 'C' else if n = 13 then 'D' else if n = 14 then 'E'
  else 'F'

/-- Percent-escape one byte. -/
def escapeByte (b : Nat) : List Char := ['%', hexDigitUpper (b / 16), hexDigitUpper (b % 16)]

/-- net/url shouldEscape, mode encodePathSegment, negated: true when the
byte is emitted unescaped.  Alphanumerics and the RFC 3986 marks are kept;
of the reserved set only the characters special inside a path segment
(slash, semicolon, comma, question mark) are escaped. -/
def keptInPathSegment (c : Char) : Bool :=
  if ('a' ≤ c ∧ c ≤ 'z') ∨ ('A' ≤ c ∧ c ≤ 'Z') ∨ ('0' ≤ c ∧ c ≤ '9') then true
  else if c = '-' ∨ c = '_' ∨ c = '.' ∨ c = '~' then true
  else if c = '$' ∨ c = '&' ∨ c = '+' ∨ c = ',' ∨ c = '/' ∨ c = ':' ∨ c = ';'
          ∨ c = '=' ∨ c = '?' ∨ c = '@' then
    if c = '/' ∨ c = ';' ∨ c = ',' ∨ c = '?' then false else true
  else false

/-- Escape a single character of a path segment. -/
def pathEscapeChar (c : Char) : List Char :=
  if keptInPathSegment c then [c] else ((utf8Bytes c).map escapeByte).flatten

/-- Go url.PathEscape. -/
def pathEscape (s : String) : String := ⟨(s.data.map pathEscapeChar).flatten⟩

/-! ## Path predicates used by the claims -/

/-- A normal path segment: nonempty, not the dot or dotdot segment, and
slash-free. -/
def goodSeg (seg : List Char) : Prop :=
  seg ≠ [] ∧ seg ≠ ['.'] ∧ seg ≠ dd ∧ '/' ∉ seg

instance : DecidablePred goodSeg := fun seg => by unfold goodSeg; infer_instance

/-- The string begins with a slash. -/
def rootedAt (s : String) : Prop := s.data.head? = some '/'

instance : DecidablePred rootedAt := fun s => by unfold rootedAt; infer_instance

/-- Some slash-separated segment of the string is the parent-directory
segment dotdot. -/
def hasDotDotSegment (s : String) : Prop := dd ∈ splitSlash s.data

instance : DecidablePred hasDotDotSegment := fun s => by
  unfold hasDotDotSegment; infer_instance

/-- The string is a path already in normalized rooted form: it begins
with a slash and cleaning leaves it unchanged. -/
def isCleanRooted (s : String) : Prop := pathClean s = s ∧ rootedAt s

instance : DecidablePred isCleanRooted := fun s => by
  unfold isCleanRooted; infer_instance

/-! ## VersionSwitch and AppRewrite (main.go)

VersionSwitch resolves the effective version with strict precedence
(query parameter, then cookie, then the default read from the version
store), possibly emits a version-override cookie and a Cache-Control
header, and rewrites the request path.  A request cookie parsed by Go's
req.Cookie carries only its name and value; the refresh branch re-sends
that very struct with only the expiry updated.  Time is modelled by a
`now` parameter and Go's time.Hour by 3600 of its seconds.
-/

/-- An HTTP cookie, with the fields the program touches. -/
structure Cookie where
  name : String
  value : String
  path : String
  expires : Nat
  httpOnly : Bool
deriving Repr, DecidableEq

/-- The cookie name recognized and issued by VersionSwitch. -/
def VersionCookieName : String := "version-override"

/-- A cookie as it arrives parsed from a request header: only name and
value are populated (Go's http.Request.Cookie). -/
def requestCookie (value : String) : Cookie :=
  { name := VersionCookieName, value := value, path := "", expires := 0, httpOnly := false }

/-- The path rewrite applied by VersionSwitch after resolving a version:
the escaped version joined with the request path, rooted and cleaned. -/
def versionSwitchPath (version reqPath : String) : String :=
  pathClean ("/" ++ pathJoin (pathEscape version) reqPath)

/-- The observable result of the VersionSwitch middleware on one request. -/
structure VersionResolution where
  version : String
  setCookie : Option Cookie
  cacheControlNoStore : Bool
  newPath : String
deriving Repr, DecidableEq

/-- VersionSwitch from main.go.  `queryVersion` is the value of
req.URL.Query().Get "version" (empty when the parameter is absent), and
`cookie` the value of a version-override request cookie when one is
present. -/
def versionSwitch (defaultVersion : String) (now : Nat) (queryVersion : String)
    (cookie : Option String) (reqPath : String) : VersionResolution :=
  let chosen : String × Option Cookie × Bool :=
    if queryVersion ≠ "" then
      (queryVersion,
       some { name := VersionCookieName, httpOnly := false, path := "/",
              expires := now + 3600, value := queryVersion },
       true)
    else
      match cookie with
      | some cookieValue =>
        (cookieValue, some { requestCookie cookieValue with expires := now + 3600 }, true)
      | none => (defaultVersion, none, false)
  { version := chosen.1
    setCookie := chosen.2.1
    cacheControlNoStore := chosen.2.2
    newPath := versionSwitchPath chosen.1 reqPath }

/-- AppRewrite from main.go: requests whose path has no extension are
rewritten to the entry document. -/
def appRewrite (p : String) : String :=
  if pathExt p = "" then "/index.html" else p

/-- The effective path after the middleware chain AppRewrite then
VersionSwitch, as wired in main (AppRewrite wraps VersionSwitch, so it
runs first). -/
def appThenVersionPath (version p : String) : String :=
  versionSwitchPath version (appRewrite p)

/-! ## fileServer (main.go)

The fetch-on-miss disk cache.  The cache directory is a map from the
cleaned rooted file path (the formula shared by http.Dir.Open and
httpDir.Create: filepath.Join(root, path.Clean("/"+name)), taken relative
to the root; the separator check is vacuous on slash-separated platforms)
to stored file contents.  http.ReadResponse and http.Response.Write are
abstracted as a parse/serialize pair over an entry type ε.
-/

/-- An HTTP response as the program observes it: status code, header
fields, body bytes. -/
structure Response where
  statusCode : Nat
  header : List (String × String)
  body : List Nat
deriving Repr, DecidableEq

/-- The path under the cache root at which a name is read and written
(http.Dir.Open and httpDir.Create agree on this formula). -/
def httpDirFullPath (name : String) : String := pathClean ("/" ++ name)

/-- The environment of the fileServer: the origin base path and fetcher
(none models a transport error from client.Get), and the response
(de)serialization pair. -/
structure FileServerModel (ε : Type) where
  sourcePath : String
  origin : String → Option Response
  parse : ε → Option Response
  serialize : Response → ε

/-- The distinguishable errors of tryServeFile: a missing cache file
(os.IsNotExist) versus a stored entry http.ReadResponse rejects. -/
inductive ServeErr where
  | notExist
  | parseError
deriving Repr, DecidableEq

/-- A cache directory state. -/
def CacheDir (ε : Type) : Type := String → Option ε

/-- Writing one file (os.Create truncates and replaces). -/
def cacheWrite {ε : Type} (cache : CacheDir ε) (key : String) (contents : ε) : CacheDir ε :=
  fun k => if k = key then some contents else cache k

/-- fileServer.tryServeFile: open the cache file for the request path and
parse it as a serialized HTTP response; a missing file and a malformed
entry are distinct errors. -/
def tryServeFile {ε : Type} (m : FileServerModel ε) (cache : CacheDir ε)
    (reqPath : String) : Except ServeErr Response :=
  match cache (httpDirFullPath reqPath) with
  | none => .error .notExist
  | some entry =>
    match m.parse entry with
    | none => .error .parseError
    | some r => .ok r

/-- fileServer.doCacheFetch: GET the origin at its base path joined with
the request path and, on success, persist the whole serialized response
at the cache path; the response status code is never inspected. -/
def doCacheFetch {ε : Type} (m : FileServerModel ε) (cache : CacheDir ε)
    (reqPath : String) : Option (CacheDir ε) :=
  match m.origin (pathJoin m.sourcePath reqPath) with
  | none => none
  | some res => some (cacheWrite cache (httpDirFullPath reqPath) (m.serialize res))

/-- What one request observed from the fileServer: the final X-Cache
header value, the status, headers and body written to the client, the
cache directory afterwards, and how many origin fetches and cache
lookups happened. -/
structure ServeResult (ε : Type) where
  xCache : String
  status : Nat
  header : List (String × String)
  body : List Nat
  cacheAfter : CacheDir ε
  fetchCount : Nat
  lookupCount : Nat

/-- fileServer.ServeHTTP: X-Cache is optimistically "hit"; the request
path is cleaned; a not-exist lookup flips X-Cache to "miss", fetches the
origin synchronously and retries the lookup exactly once; every error is
surfaced by doError as a bare 500 with no body. -/
def serveHTTP {ε : Type} (m : FileServerModel ε) (cache : CacheDir ε)
    (reqPath : String) : ServeResult ε :=
  let p := pathClean reqPath
  match tryServeFile m cache p with
  | .ok r =>
    { xCache := "hit", status := r.statusCode, header := r.header, body := r.body,
      cacheAfter := cache, fetchCount := 0, lookupCount := 1 }
  | .error .parseError =>
    { xCache := "hit", status := 500, header := [], body := [],
      cacheAfter := cache, fetchCount := 0, lookupCount := 1 }
  | .error .notExist =>
    match doCacheFetch m cache p with
    | none =>
      { xCache := "miss", status := 500, header := [], body := [],
        cacheAfter := cache, fetchCount := 1, lookupCount := 1 }
    | some cache' =>
      match tryServeFile m cache' p with
      | .ok r =>
        { xCache := "miss", status := r.statusCode, header := r.header, body := r.body,
          cacheAfter := cache', fetchCount := 1, lookupCount := 2 }
      | .error _ =>
        { xCache := "miss", status := 500, header := [], body := [],
          cacheAfter := cache', fetchCount := 1, lookupCount := 2 }

/-! ## ProxyPaths (proxy.go)

The dev-prefix forwarder walks the configured records in order; the first
whose prefix matches the request path wins.  An unparsable target is
routed through doError (a 500), an upstream failure through
http.StatusBadGateway (502).  url.Parse and the upstream transport are
abstracted as predicates on the target string and on the target/path
pair.
-/

/-- One record of the dev-paths configuration file. -/
structure ProxyConfig where
  Prefix : String
  Target : String
deriving Repr, DecidableEq

/-- The outcome of ProxyPaths on one request. -/
inductive ProxyResult where
  | nextHandler
  | errorStatus (code : Nat)
  | proxied (target : String)
deriving Repr, DecidableEq

/-- Go strings.HasPrefix on the characters of the strings. -/
def startsWithStr (s pre : String) : Bool := pre.data.isPrefixOf s.data

/-- ProxyPaths from proxy.go.  `parseOk t` says url.Parse accepts the
target t; `upstreamOk t p` says the forwarded fetch of path p against
target t succeeds. -/
def proxyPaths (parseOk : String → Bool) (upstreamOk : String → String → Bool) :
    List ProxyConfig → String → ProxyResult
  | [], _ => .nextHandler
  | cfg :: rest, reqPath =>
    if startsWithStr reqPath cfg.Prefix then
      if parseOk cfg.Target then
        if upstreamOk cfg.Target reqPath then .proxied cfg.Target
        else .errorStatus 502
      else .errorStatus 500
    else proxyPaths parseOk upstreamOk rest reqPath

/-! ## Concrete fixtures used by the witnesses of the server claims

The entry type is instantiated at Option Response: serialization wraps a
response in some, parsing reads it back, and a stored none stands for a
file http.ReadResponse rejects.
-/

/-- A well-formed origin response. -/
def witnessResponse : Response :=
  { statusCode := 200, header := [("Content-Type", "text/css")], body := [104, 105] }

/-- A non-200 origin response (a 404 with a short body). -/
def witnessResponse404 : Response :=
  { statusCode := 404, header := [("Content-Type", "text/plain")], body := [110, 111] }

/-- A file-server environment whose origin always answers with r. -/
def witnessModel (r : Response) : FileServerModel (Option Response) :=
  { sourcePath := "/assets", origin := fun _ => some r,
    parse := fun e => e, serialize := fun res => some res }

/-- A file-server environment whose origin fetch always fails. -/
def witnessFailModel : FileServerModel (Option Response) :=
  { sourcePath := "/assets", origin := fun _ => none,
    parse := fun e => e, serialize := fun res => some res }

/-- A file-server environment that stores entries no parse accepts. -/
def witnessBadParseModel : FileServerModel (Option Response) :=
  { sourcePath := "/assets", origin := fun _ => some witnessResponse,
    parse := fun _ => none, serialize := fun res => some res }

/-- The empty cache directory. -/
def emptyCache : CacheDir (Option Response) := fun _ => none

/-- A cache directory whose every file is malformed. -/
def corruptCache : CacheDir (Option Response) := fun _ => some none

/-! ## Lemmas about the path model -/

theorem splitSlash_ne_nil (cs : List Char) : splitSlash cs ≠ [] := by
  induction cs with
  | nil => simp [splitSlash]
  | cons c cs ih =>
    simp only [splitSlash]
    split
    · simp
    · cases h : splitSlash cs with
      | nil => exact absurd h ih
      | cons seg rest => simp [consHead]

theorem mem_splitSlash_no_slash {cs : List Char} {seg : List Char}
    (h : seg ∈ splitSlash cs) : '/' ∉ seg := by
  induction cs generalizing seg with
  | nil => simp [splitSlash] at h; simp [h]
  | cons c cs ih =>
    simp only [splitSlash] at h
    split at h
    · rcases List.mem_cons.mp h with h' | h'
      · simp [h']
      · exact ih h'
    · rename_i hc
      cases hsplit : splitSlash cs with
      | nil => exact absurd hsplit (splitSlash_ne_nil cs)
      | cons s rest =>
        rw [hsplit, consHead] at h
        rcases List.mem_cons.mp h with h' | h'
        · subst h'
          intro hmem
          rcases List.mem_cons.mp hmem with h'' | h''
          · exact hc h''.symm
          · exact ih (by rw [hsplit]; exact List.mem_cons_self s rest) h''
        · exact ih (by rw [hsplit]; exact List.mem_cons_of_mem s h')

theorem splitSlash_append_slash {a : List Char} (ha : '/' ∉ a) (cs : List Char) :
    splitSlash (a ++ '/' :: cs) = a :: splitSlash cs := by
  induction a with
  | nil => simp [splitSlash]
  | cons c a ih =>
    have hc : c ≠ '/' := fun h => ha (h ▸ List.mem_cons_self c a)
    have ha' : '/' ∉ a := fun h => ha (List.mem_cons_of_mem c h)
    simp only [List.cons_append, splitSlash, if_neg hc, List.append_eq, ih ha', consHead]

theorem splitSlash_no_slash {a : List Char} (ha : '/' ∉ a) : splitSlash a = [a] := by
  induction a with
  | nil => simp [splitSlash]
  | cons c a ih =>
    have hc : c ≠ '/' := fun h => ha (h ▸ List.mem_cons_self c a)
    have ha' : '/' ∉ a := fun h => ha (List.mem_cons_of_mem c h)
    simp only [splitSlash, if_neg hc, ih ha', consHead]

theorem splitSlash_intercalate {L : List (List Char)}
    (h : ∀ seg ∈ L, '/' ∉ seg) (hne : L ≠ []) :
    splitSlash (intercalateSlash L) = L := by
  induction L with
  | nil => exact absurd rfl hne
  | cons seg rest ih =>
    cases rest with
    | nil =>
      simpa [intercalateSlash] using splitSlash_no_slash (h seg (List.mem_cons_self ..))
    | cons seg2 rest2 =>
      rw [intercalateSlash, splitSlash_append_slash (h seg (List.mem_cons_self ..))]
      rw [ih (fun s hs => h s (List.mem_cons_of_mem _ hs)) (List.cons_ne_nil seg2 rest2)]
      exact List.cons_ne_nil seg2 rest2

/-! Unfolding equations for the cleanLoop cases. -/

theorem cleanLoop_nil (r : Bool) (st : List (List Char)) :
    cleanLoop r [] st = st := by
  rw [cleanLoop.eq_def]

theorem cleanLoop_skip {seg : List Char} (hskip : seg = [] ∨ seg = ['.'])
    (r : Bool) (rest st : List (List Char)) :
    cleanLoop r (seg :: rest) st = cleanLoop r rest st := by
  rw [cleanLoop.eq_def]
  simp only [if_pos hskip]

theorem cleanLoop_push {seg : List Char} (hskip : ¬ (seg = [] ∨ seg = ['.']))
    (hdd : seg ≠ dd) (r : Bool) (rest st : List (List Char)) :
    cleanLoop r (seg :: rest) st = cleanLoop r rest (seg :: st) := by
  rw [cleanLoop.eq_def]
  simp only [if_neg hskip, if_neg hdd]

theorem cleanLoop_dd_true_nil (rest : List (List Char)) :
    cleanLoop true (dd :: rest) [] = cleanLoop true rest [] := by
  rw [cleanLoop.eq_def]
  simp

theorem cleanLoop_dd_false_nil (rest : List (List Char)) :
    cleanLoop false (dd :: rest) [] = cleanLoop false rest [dd] := by
  rw [cleanLoop.eq_def]
  simp [dd]

theorem cleanLoop_dd_true_cons (rest : List (List Char)) (top : List Char)
    (st : List (List Char)) :
    cleanLoop true (dd :: rest) (top :: st) = cleanLoop true rest st := by
  rw [cleanLoop.eq_def]
  simp [dd]

theorem cleanLoop_dd_false_cons_dd (rest : List (List Char)) (st : List (List Char)) :
    cleanLoop false (dd :: rest) (dd :: st) = cleanLoop false rest (dd :: dd :: st) := by
  rw [cleanLoop.eq_def]
  simp [dd]

theorem cleanLoop_dd_false_cons_ne (rest : List (List Char)) {top : List Char}
    (htop : top ≠ dd) (st : List (List Char)) :
    cleanLoop false (dd :: rest) (top :: st) = cleanLoop false rest st := by
  have htop' : top ≠ ['.', '.'] := by simpa [dd] using htop
  rw [cleanLoop.eq_def]
  simp [dd, htop']

theorem cleanLoop_all_good (r : Bool) {l : List (List Char)} (st : List (List Char))
    (h : ∀ seg ∈ l, goodSeg seg) : cleanLoop r l st = l.reverse ++ st := by
  induction l generalizing st with
  | nil => simp [cleanLoop_nil]
  | cons seg rest ih =>
    obtain ⟨h1, h2, h3, -⟩ := h seg (List.mem_cons_self ..)
    rw [cleanLoop_push (by simp [h1, h2]) h3,
      ih (seg :: st) (fun s hs => h s (List.mem_cons_of_mem _ hs))]
    simp

theorem cleanLoop_true_stack_good {l st : List (List Char)}
    (hl : ∀ seg ∈ l, '/' ∉ seg) (hst : ∀ x ∈ st, goodSeg x) :
    ∀ x ∈ cleanLoop true l st, goodSeg x := by
  induction l generalizing st with
  | nil => simpa [cleanLoop_nil] using hst
  | cons seg rest ih =>
    have hrest : ∀ s ∈ rest, '/' ∉ s := fun s hs => hl s (List.mem_cons_of_mem _ hs)
    by_cases hskip : seg = [] ∨ seg = ['.']
    · rw [cleanLoop_skip hskip]
      exact ih hrest hst
    · by_cases hdd : seg = dd
      · subst hdd
        cases st with
        | nil =>
          rw [cleanLoop_dd_true_nil]
          exact ih hrest (by simp)
        | cons top st' =>
          rw [cleanLoop_dd_true_cons]
          exact ih hrest (fun x hx => hst x (List.mem_cons_of_mem top hx))
      · rw [cleanLoop_push hskip hdd]
        refine ih hrest ?_
        intro x hx
        rcases List.mem_cons.mp hx with h' | h'
        · subst h'
          exact ⟨fun h => hskip (Or.inl h), fun h => hskip (Or.inr h), hdd,
            hl x (List.mem_cons_self ..)⟩
        · exact hst x h'

theorem cleanLoop_true_replicate_dd (k : Nat) (l : List (List Char)) :
    cleanLoop true (List.replicate k dd ++ l) [] = cleanLoop true l [] := by
  induction k with
  | zero => simp
  | succ j ih =>
    rw [List.replicate_succ, List.cons_append, cleanLoop_dd_true_nil]
    exact ih

theorem cleanLoop_false_basement {l : List (List Char)} :
    ∀ (g : List (List Char)) (k : Nat), (∀ x ∈ g, x ≠ dd) →
    ∃ k', k ≤ k' ∧
      cleanLoop false l (g ++ List.replicate k dd) =
        cleanLoop true l g ++ List.replicate k' dd := by
  induction l with
  | nil => exact fun g k _ => ⟨k, Nat.le_refl k, by simp [cleanLoop_nil]⟩
  | cons seg rest ih =>
    intro g k hg
    by_cases hskip : seg = [] ∨ seg = ['.']
    · rw [cleanLoop_skip hskip, cleanLoop_skip hskip]
      exact ih g k hg
    · by_cases hdd : seg = dd
      · subst hdd
        cases g with
        | nil =>
          cases k with
          | zero =>
            simp only [List.nil_append, List.replicate_zero]
            rw [cleanLoop_dd_false_nil, cleanLoop_dd_true_nil]
            obtain ⟨k', hk', heq⟩ := ih [] 1 (by simp)
            exact ⟨k', Nat.le_trans (Nat.zero_le 1) hk', by simpa using heq⟩
          | succ j =>
            simp only [List.nil_append, List.replicate_succ]
            rw [cleanLoop_dd_false_cons_dd, cleanLoop_dd_true_nil]
            obtain ⟨k', hk', heq⟩ := ih [] (j + 2) (by simp)
            refine ⟨k', Nat.le_trans (by omega) hk', ?_⟩
            simpa [List.replicate_succ] using heq
        | cons top g' =>
          have htop : top ≠ dd := hg top (List.mem_cons_self ..)
          rw [List.cons_append, cleanLoop_dd_false_cons_ne rest htop,
            cleanLoop_dd_true_cons]
          exact ih g' k (fun x hx => hg x (List.mem_cons_of_mem top hx))
      · rw [cleanLoop_push hskip hdd, cleanLoop_push hskip hdd]
        have hc : seg :: (g ++ List.replicate k dd) = (seg :: g) ++ List.replicate k dd := rfl
        rw [hc]
        exact ih (seg :: g) k (by
          intro x hx
          rcases List.mem_cons.mp hx with h' | h'
          · exact h' ▸ hdd
          · exact hg x h')

theorem data_mk (l : List Char) : (String.mk l).data = l := rfl

theorem data_slash_append (s : String) : ("/" ++ s).data = '/' :: s.data := by
  rw [String.data_append]
  rfl

/-- Normal form of cleaning a rooted character list. -/
theorem cleanChars_rooted (cs : List Char) :
    cleanChars ('/' :: cs) =
      '/' :: intercalateSlash (cleanLoop true (splitSlash cs) []).reverse := by
  rw [cleanChars.eq_def]
  simp only [beq_self_eq_true, splitSlash, if_true, eq_self_iff_true]
  rw [cleanLoop_skip (Or.inl rfl)]

/-- Cleaning is insensitive to a doubled leading slash. -/
theorem cleanChars_double_slash (cs : List Char) :
    cleanChars ('/' :: '/' :: cs) = cleanChars ('/' :: cs) := by
  rw [cleanChars_rooted, cleanChars_rooted, splitSlash, if_pos rfl,
    cleanLoop_skip (Or.inl rfl)]

/-- Every segment on the output stack of a rooted clean is a normal
segment. -/
theorem cleanStack_good (cs : List Char) :
    ∀ x ∈ cleanLoop true (splitSlash cs) [], goodSeg x :=
  cleanLoop_true_stack_good (fun _ hs => mem_splitSlash_no_slash hs) (by simp)

/-- A cleaned rooted path is rooted. -/
theorem pathClean_slash_rooted (s : String) : rootedAt (pathClean ("/" ++ s)) := by
  rw [pathClean, data_slash_append, cleanChars_rooted, rootedAt, data_mk]
  rfl

/-- A cleaned rooted path contains no parent-directory segment. -/
theorem pathClean_slash_noDotDot (s : String) : ¬ hasDotDotSegment (pathClean ("/" ++ s)) := by
  rw [pathClean, data_slash_append, cleanChars_rooted, hasDotDotSegment, data_mk]
  have hgood := cleanStack_good s.data
  set R := (cleanLoop true (splitSlash s.data) []).reverse with hR
  have hgoodR : ∀ x ∈ R, goodSeg x := fun x hx => hgood x (by
    rw [hR] at hx
    exact List.mem_reverse.mp hx)
  rw [splitSlash, if_pos rfl]
  rcases eq_or_ne R [] with hnil | hne
  · rw [hnil]
    simp [intercalateSlash, splitSlash, dd]
  · rw [splitSlash_intercalate (fun seg hs => (hgoodR seg hs).2.2.2) hne]
    intro hmem
    rcases List.mem_cons.mp hmem with h' | h'
    · exact absurd h'.symm (by simp [dd])
    · exact (hgoodR dd h').2.2.1 rfl

/-- Cleaning "/" ++ p for an already rooted p equals cleaning p. -/
theorem pathClean_slash_of_rooted {p : String} (hp : rootedAt p) :
    pathClean ("/" ++ p) = pathClean p := by
  rw [rootedAt] at hp
  obtain ⟨c, cs, hdata, hc⟩ : ∃ c cs, p.data = c :: cs ∧ c = '/' := by
    cases h : p.data with
    | nil => rw [h] at hp; exact absurd hp (by simp)
    | cons c cs =>
      rw [h] at hp
      exact ⟨c, cs, rfl, by simpa using hp⟩
  subst hc
  rw [pathClean, pathClean, data_slash_append, hdata, cleanChars_double_slash]

/-- The resolution of version ".." composed with cleaning: the rewritten
path is exactly the cleaned rooted original path. -/
theorem versionSwitchPath_dotdot (p : String) :
    versionSwitchPath ".." p = pathClean ("/" ++ p) := by
  rw [versionSwitchPath]
  have hesc : pathEscape ".." = ".." := by decide
  rw [hesc, pathJoin, if_neg (by decide : ¬ (".." : String) = "")]
  have hdata : ((".." : String) ++ "/" ++ p).data = '.' :: '.' :: '/' :: p.data := by
    rw [String.data_append, String.data_append]
    rfl
  set S := splitSlash p.data with hS
  have hsplit : splitSlash ('.' :: '.' :: '/' :: p.data) = dd :: S := by
    rw [splitSlash, if_neg (by decide), splitSlash, if_neg (by decide),
      splitSlash, if_pos rfl, consHead.eq_def]
    simp [consHead, dd]
  obtain ⟨k', hk', heq⟩ := cleanLoop_false_basement (l := S) [] 1 (by simp)
  simp only [List.nil_append, List.replicate_one, List.replicate] at heq
  set G := cleanLoop true S [] with hG
  have hGgood : ∀ x ∈ G, goodSeg x := cleanStack_good p.data
  have hinner : cleanChars ('.' :: '.' :: '/' :: p.data) =
      intercalateSlash (List.replicate k' dd ++ G.reverse) := by
    rw [cleanChars.eq_def]
    simp only [hsplit]
    rw [show (('.' : Char) == '/') = false by decide]
    simp only [Bool.false_eq_true, if_neg (by decide : ¬ False), reduceIte]
    rw [cleanLoop_dd_false_nil, heq]
    have hne : G ++ List.replicate k' dd ≠ [] := by
      intro h
      rcases List.append_eq_nil.mp h with ⟨-, h2⟩
      rw [List.replicate_eq_nil_iff] at h2
      omega
    rw [if_neg hne, List.reverse_append, List.reverse_replicate]
  have hinnerS : pathClean ((".." : String) ++ "/" ++ p) =
      ⟨intercalateSlash (List.replicate k' dd ++ G.reverse)⟩ := by
    rw [pathClean, hdata, hinner]
  rw [hinnerS]
  rw [pathClean, data_slash_append, data_mk, cleanChars_rooted]
  rw [pathClean, data_slash_append, cleanChars_rooted, ← hS, ← hG]
  have hmem : ∀ seg ∈ List.replicate k' dd ++ G.reverse, '/' ∉ seg := by
    intro seg hs
    rcases List.mem_append.mp hs with h' | h'
    · rw [List.eq_of_mem_replicate h']
      decide
    · exact (hGgood seg (List.mem_reverse.mp h')).2.2.2
  have hlistne : List.replicate k' dd ++ G.reverse ≠ [] := by
    intro h
    rcases List.append_eq_nil.mp h with ⟨h1, -⟩
    rw [List.replicate_eq_nil_iff] at h1
    omega
  rw [splitSlash_intercalate hmem hlistne, cleanLoop_true_replicate_dd,
    cleanLoop_all_good true [] (fun seg hs => hGgood seg (List.mem_reverse.mp hs))]
  simp

theorem ne_empty_of_data_ne_nil {s : String} (h : s.data ≠ []) : s ≠ "" := by
  intro he
  subst he
  exact h rfl

/-- A string whose first character is a slash has cons-shaped data. -/
theorem data_of_rooted {p : String} (hp : rootedAt p) :
    ∃ cs, p.data = '/' :: cs := by
  rw [rootedAt] at hp
  cases h : p.data with
  | nil => rw [h] at hp; exact absurd hp (by simp)
  | cons c cs =>
    rw [h] at hp
    simp only [List.head?_cons, Option.some.injEq] at hp
    exact ⟨cs, by rw [hp]⟩

/-- Resolving version ".." leaves an already normalized rooted path
unchanged. -/
theorem versionSwitchPath_dotdot_cleanRooted {p : String} (hp : isCleanRooted p) :
    versionSwitchPath ".." p = p := by
  rw [versionSwitchPath_dotdot, pathClean_slash_of_rooted hp.2, hp.1]

/-- Resolving the empty version (an empty cookie value) leaves an already
normalized rooted path unchanged: no version prefix is added. -/
theorem versionSwitchPath_empty_cleanRooted {p : String} (hp : isCleanRooted p) :
    versionSwitchPath "" p = p := by
  have hne : p ≠ "" := by
    obtain ⟨cs, hcs⟩ := data_of_rooted hp.2
    exact ne_empty_of_data_ne_nil (by rw [hcs]; simp)
  rw [versionSwitchPath]
  have hesc : pathEscape "" = "" := rfl
  rw [hesc, pathJoin, if_pos rfl, if_neg hne, hp.1, pathClean_slash_of_rooted hp.2, hp.1]

/-- Unfolding a clean of a non-rooted character list. -/
theorem cleanChars_not_rooted {c : Char} (hc : c ≠ '/') (cs : List Char) :
    cleanChars (c :: cs) =
      (if cleanLoop false (splitSlash (c :: cs)) [] = [] then ['.']
       else intercalateSlash (cleanLoop false (splitSlash (c :: cs)) []).reverse) := by
  have hb : (c == '/') = false := by
    simp [hc]
  rw [cleanChars.eq_def]
  simp only [hb, Bool.false_eq_true, if_false]

/-- With a normal-segment escaped version, the version-switch rewrite of
the entry document is exactly the version-prefixed entry document. -/
theorem versionSwitchPath_entry (v : String) (h : goodSeg (pathEscape v).data) :
    versionSwitchPath v "/index.html" = "/" ++ pathEscape v ++ "/index.html" := by
  obtain ⟨h1, h2, h3, h4⟩ := h
  rw [versionSwitchPath, pathJoin, if_neg (ne_empty_of_data_ne_nil h1)]
  have hih : ("/index.html" : String).data = '/' :: ("index.html" : String).data := rfl
  have hihgood : ¬ (("index.html" : String).data = [] ∨ ("index.html" : String).data = ['.']) := by
    decide
  have hihdd : ("index.html" : String).data ≠ dd := by decide
  have hihslash : '/' ∉ ("index.html" : String).data := by decide
  obtain ⟨c, cs, he⟩ : ∃ c cs, (pathEscape v).data = c :: cs := by
    cases hd : (pathEscape v).data with
    | nil => exact absurd hd h1
    | cons c cs => exact ⟨c, cs, rfl⟩
  have hc : c ≠ '/' := fun hcc => h4 (by rw [he, hcc]; exact List.mem_cons_self ..)
  have hslash : '/' ∉ c :: cs := he ▸ h4
  have hdata : ((pathEscape v) ++ "/" ++ "/index.html").data =
      (c :: cs) ++ '/' :: '/' :: ("index.html" : String).data := by
    rw [String.data_append, String.data_append, hih, he]
    simp
  have hsplitInner : splitSlash ((c :: cs) ++ '/' :: '/' :: ("index.html" : String).data) =
      (c :: cs) :: [] :: [("index.html" : String).data] := by
    rw [splitSlash_append_slash hslash, splitSlash, if_pos rfl,
      splitSlash_no_slash hihslash]
  have hstack : cleanLoop false (splitSlash ((c :: cs) ++ '/' :: '/' ::
      ("index.html" : String).data)) [] = [("index.html" : String).data, c :: cs] := by
    rw [hsplitInner, cleanLoop_push (by simp [he ▸ h2]) (he ▸ h3),
      cleanLoop_skip (Or.inl rfl), cleanLoop_push hihgood hihdd, cleanLoop_nil]
  have hinner : pathClean ((pathEscape v) ++ "/" ++ "/index.html") =
      ⟨(c :: cs) ++ '/' :: ("index.html" : String).data⟩ := by
    rw [pathClean, hdata, List.cons_append, cleanChars_not_rooted hc,
      ← List.cons_append, hstack, if_neg (by simp)]
    simp [intercalateSlash]
  rw [hinner]
  apply String.ext
  rw [pathClean, data_slash_append, data_mk, cleanChars_rooted,
    splitSlash_append_slash hslash, splitSlash_no_slash hihslash,
    cleanLoop_push (by simp [he ▸ h2]) (he ▸ h3), cleanLoop_push hihgood hihdd,
    cleanLoop_nil]
  rw [String.data_append, String.data_append, he, hih,
    show ("/" : String).data = ['/'] from rfl]
  simp [intercalateSlash]

/-! ## Claim theorems: version resolution and path rewriting -/

/-- C1 (counterexample): with version ".." and the legal request path
"/a//b.css" (which AppRewrite passes through since it has an extension),
VersionSwitch produces "/a/b.css", not the original path — so "resolving
version .. yields exactly the original, unprefixed path" is false as a
universal statement over request paths. -/
theorem claim_C1_counterexample :
    versionSwitchPath ".." "/a//b.css" ≠ "/a//b.css" ∧
    versionSwitchPath ".." "/a//b.css" = "/a/b.css" :=
  ⟨by decide, by decide⟩

/-- C1 (amended): for every version string supplied via the query
parameter and every request path, the path produced by VersionSwitch is
rooted at "/" and contains no ".." segment; resolving version ".." yields
the cleaned original path — exactly the original, unprefixed path
whenever that path is already in normalized rooted form. -/
theorem claim_C1_amended (version reqPath : String) :
    rootedAt (versionSwitchPath version reqPath) ∧
    ¬ hasDotDotSegment (versionSwitchPath version reqPath) ∧
    (version = ".." → versionSwitchPath version reqPath = pathClean ("/" ++ reqPath)) ∧
    (version = ".." → isCleanRooted reqPath → versionSwitchPath version reqPath = reqPath) := by
  refine ⟨?_, ?_, fun hv => ?_, fun hv hp => ?_⟩
  · rw [versionSwitchPath]
    exact pathClean_slash_rooted _
  · rw [versionSwitchPath]
    exact pathClean_slash_noDotDot _
  · subst hv
    exact versionSwitchPath_dotdot reqPath
  · subst hv
    exact versionSwitchPath_dotdot_cleanRooted hp

/-- C1 (witness): the amended claim evaluated at version ".." and the
normalized path "/index.html", the spec's own test vector. -/
theorem claim_C1_witness :
    rootedAt (versionSwitchPath ".." "/index.html") ∧
    ¬ hasDotDotSegment (versionSwitchPath ".." "/index.html") ∧
    versionSwitchPath ".." "/index.html" = pathClean ("/" ++ "/index.html") ∧
    versionSwitchPath ".." "/index.html" = "/index.html" := by
  obtain ⟨h1, h2, h3, h4⟩ := claim_C1_amended ".." "/index.html"
  exact ⟨h1, h2, h3 rfl, h4 rfl (by decide)⟩

/-- C3: a non-empty version query parameter strictly wins over the cookie
and is echoed into the outgoing version-override cookie; with no query the
cookie value is used; with neither, the resolved version is the version
store's current value and no cookie is set. -/
theorem claim_C3 (d : String) (now : Nat) (q : String) (cookie : Option String)
    (p : String) :
    (q ≠ "" →
      (versionSwitch d now q cookie p).version = q ∧
      ((versionSwitch d now q cookie p).setCookie.map Cookie.value) = some q) ∧
    (∀ cv, q = "" → cookie = some cv → (versionSwitch d now q cookie p).version = cv) ∧
    (q = "" → cookie = none →
      (versionSwitch d now q cookie p).version = d ∧
      (versionSwitch d now q cookie p).setCookie = none) := by
  refine ⟨fun hq => ?_, fun cv hq hc => ?_, fun hq hc => ?_⟩
  · simp [versionSwitch, hq]
  · subst hq; subst hc
    simp [versionSwitch]
  · subst hq; subst hc
    simp [versionSwitch]

/-- C3 (witness): with query v2 and cookie v1 the resolution is v2 and
the cookie is updated to v2; cookie-only resolves v1; with neither, the
default is used and no cookie is issued. -/
theorem claim_C3_witness :
    ((versionSwitch "default" 0 "v2" (some "v1") "/style.css").version = "v2" ∧
      ((versionSwitch "default" 0 "v2" (some "v1") "/style.css").setCookie.map Cookie.value) =
        some "v2") ∧
    (versionSwitch "default" 0 "" (some "v1") "/style.css").version = "v1" ∧
    ((versionSwitch "default" 0 "" none "/style.css").version = "default" ∧
      (versionSwitch "default" 0 "" none "/style.css").setCookie = none) :=
  ⟨(claim_C3 "default" 0 "v2" (some "v1") "/style.css").1 (by decide),
    (claim_C3 "default" 0 "" (some "v1") "/style.css").2.1 "v1" rfl rfl,
    (claim_C3 "default" 0 "" none "/style.css").2.2 rfl rfl⟩

/-- C6 (counterexample): the cookie-refresh branch re-sends the request
cookie, which carries no Path attribute — an empty path, not the "/"
scope the claim asserts for every Set-Cookie. -/
theorem claim_C6_counterexample :
    ((versionSwitch "d" 0 "" (some "v1") "/a.css").setCookie.map Cookie.path) ≠ some "/" ∧
    (versionSwitch "d" 0 "" (some "v1") "/a.css").setCookie ≠ none :=
  ⟨by decide, by decide⟩

/-- C6 (amended): every version-override Set-Cookie has a one-hour expiry
and HttpOnly disabled; the query-branch cookie carries path scope "/",
while the refresh-branch cookie carries no path attribute (empty path,
default scope). -/
theorem claim_C6_amended (d : String) (now : Nat) (q : String) (cookie : Option String)
    (p : String) :
    (q ≠ "" → (versionSwitch d now q cookie p).setCookie =
      some { name := VersionCookieName, value := q, path := "/",
             expires := now + 3600, httpOnly := false }) ∧
    (∀ cv, (versionSwitch d now "" (some cv) p).setCookie =
      some { name := VersionCookieName, value := cv, path := "",
             expires := now + 3600, httpOnly := false }) ∧
    (∀ c ∈ (versionSwitch d now q cookie p).setCookie,
      c.expires = now + 3600 ∧ c.httpOnly = false) := by
  refine ⟨fun hq => by simp [versionSwitch, hq],
    fun cv => by simp [versionSwitch, requestCookie], ?_⟩
  intro c hc
  by_cases hq : q = ""
  · subst hq
    cases cookie with
    | none => simp [versionSwitch] at hc
    | some cv =>
      simp [versionSwitch, requestCookie] at hc
      rw [← hc]
      exact ⟨rfl, rfl⟩
  · simp [versionSwitch, hq] at hc
    rw [← hc]
    exact ⟨rfl, rfl⟩

/-- C6 (witness): the amended claim evaluated on the query branch (v2)
and the refresh branch (cookie v1) at time 5. -/
theorem claim_C6_witness :
    (versionSwitch "d" 5 "v2" (some "v1") "/a.css").setCookie =
      some { name := VersionCookieName, value := "v2", path := "/",
             expires := 5 + 3600, httpOnly := false } ∧
    (versionSwitch "d" 5 "" (some "v1") "/a.css").setCookie =
      some { name := VersionCookieName, value := "v1", path := "",
             expires := 5 + 3600, httpOnly := false } ∧
    (∀ c ∈ (versionSwitch "d" 5 "v2" (some "v1") "/a.css").setCookie,
      c.expires = 5 + 3600 ∧ c.httpOnly = false) :=
  ⟨(claim_C6_amended "d" 5 "v2" (some "v1") "/a.css").1 (by decide),
    (claim_C6_amended "d" 5 "" (some "v1") "/a.css").2.1 "v1",
    (claim_C6_amended "d" 5 "v2" (some "v1") "/a.css").2.2⟩

/-- C8: a request path without a file extension is rewritten by
AppRewrite to the entry document "/index.html" and a path with an
extension passes through unchanged; since AppRewrite runs before
VersionSwitch, an extensionless request resolves to the version-prefixed
entry document. -/
theorem claim_C8 (version p : String) :
    (pathExt p = "" → appRewrite p = "/index.html") ∧
    (pathExt p ≠ "" → appRewrite p = p) ∧
    (pathExt p = "" → appThenVersionPath version p = versionSwitchPath version "/index.html") ∧
    (pathExt p = "" → goodSeg (pathEscape version).data →
      appThenVersionPath version p = "/" ++ pathEscape version ++ "/index.html") := by
  refine ⟨fun h => by simp [appRewrite, h], fun h => by simp [appRewrite, h],
    fun h => by simp [appThenVersionPath, appRewrite, h], fun h hg => ?_⟩
  rw [appThenVersionPath, appRewrite, if_pos h]
  exact versionSwitchPath_entry version hg

/-- C8 (witness): "/sub/app" (no extension) resolves under version v1 to
"/v1/index.html"; "/style.css" passes through AppRewrite unchanged. -/
theorem claim_C8_witness :
    appRewrite "/sub/app" = "/index.html" ∧
    appRewrite "/style.css" = "/style.css" ∧
    appThenVersionPath "v1" "/sub/app" = versionSwitchPath "v1" "/index.html" ∧
    appThenVersionPath "v1" "/sub/app" = "/" ++ pathEscape "v1" ++ "/index.html" := by
  obtain ⟨h1, -, h3, h4⟩ := claim_C8 "v1" "/sub/app"
  obtain ⟨-, h2, -, -⟩ := claim_C8 "v1" "/style.css"
  exact ⟨h1 (by decide), h2 (by decide), h3 (by decide), h4 (by decide) (by decide)⟩

/-- C10 (counterexample): with an empty-valued version-override cookie
and the non-normalized request path "/a//b.css", VersionSwitch resolves
version "" but rewrites the path to "/a/b.css" — not the original path,
so the claim's unconditional "the rewritten path equals the original
path" is false. -/
theorem claim_C10_counterexample :
    (versionSwitch "d" 0 "" (some "") "/a//b.css").version = "" ∧
    (versionSwitch "d" 0 "" (some "") "/a//b.css").newPath ≠ "/a//b.css" ∧
    (versionSwitch "d" 0 "" (some "") "/a//b.css").newPath = "/a/b.css" :=
  ⟨by decide, by decide, by decide⟩

/-- C10 (amended): a version-override cookie with an empty value takes
the cookie branch: the resolved version is "", so no version prefix is
added — the rewritten path equals the original path whenever that path
is already in normalized rooted form — while the empty cookie is still
refreshed and no-store is still set; an empty version query parameter
falls through to the cookie and default branches. -/
theorem claim_C10_amended (d : String) (now : Nat) (p : String) :
    (versionSwitch d now "" (some "") p).version = "" ∧
    (versionSwitch d now "" (some "") p).setCookie =
      some { name := VersionCookieName, value := "", path := "",
             expires := now + 3600, httpOnly := false } ∧
    (versionSwitch d now "" (some "") p).cacheControlNoStore = true ∧
    (isCleanRooted p → (versionSwitch d now "" (some "") p).newPath = p) ∧
    (versionSwitch d now "" none p).version = d ∧
    (versionSwitch d now "" none p).setCookie = none := by
  refine ⟨by simp [versionSwitch], by simp [versionSwitch, requestCookie],
    by simp [versionSwitch], fun hp => ?_, by simp [versionSwitch],
    by simp [versionSwitch]⟩
  have hnp : (versionSwitch d now "" (some "") p).newPath = versionSwitchPath "" p := by
    simp [versionSwitch]
  rw [hnp, versionSwitchPath_empty_cleanRooted hp]

/-- C10 (witness): an empty cookie value on a request for "/style.css"
resolves version "" with the path left exactly as-is, while no cookie at
all uses the default version. -/
theorem claim_C10_witness :
    (versionSwitch "v9" 0 "" (some "") "/style.css").version = "" ∧
    (versionSwitch "v9" 0 "" (some "") "/style.css").newPath = "/style.css" ∧
    (versionSwitch "v9" 0 "" (some "") "/style.css").cacheControlNoStore = true ∧
    (versionSwitch "v9" 0 "" none "/style.css").version = "v9" := by
  obtain ⟨h1, -, h3, h4, h5, -⟩ := claim_C10_amended "v9" 0 "/style.css"
  exact ⟨h1, h4 (by decide), h3, h5⟩

/-! ## Claim theorems: the fetch-on-miss file server -/

/-- C2: the fileServer reports X-Cache "miss" exactly when the local
lookup fails with not-exist; on a miss it performs one origin fetch,
persists the serialized response, and serves it; a subsequent request
for the same path is a "hit" that performs no origin fetch and replays
the stored status, header fields and body unchanged. -/
theorem claim_C2 {ε : Type} (m : FileServerModel ε) (cache : CacheDir ε)
    (reqPath : String) (r : Response)
    (hmiss : cache (httpDirFullPath (pathClean reqPath)) = none)
    (horigin : m.origin (pathJoin m.sourcePath (pathClean reqPath)) = some r)
    (hround : m.parse (m.serialize r) = some r) :
    (serveHTTP m cache reqPath).xCache = "miss" ∧
    (serveHTTP m cache reqPath).fetchCount = 1 ∧
    (serveHTTP m cache reqPath).status = r.statusCode ∧
    (serveHTTP m cache reqPath).header = r.header ∧
    (serveHTTP m cache reqPath).body = r.body ∧
    (serveHTTP m cache reqPath).cacheAfter (httpDirFullPath (pathClean reqPath)) =
      some (m.serialize r) ∧
    (serveHTTP m (serveHTTP m cache reqPath).cacheAfter reqPath).xCache = "hit" ∧
    (serveHTTP m (serveHTTP m cache reqPath).cacheAfter reqPath).fetchCount = 0 ∧
    (serveHTTP m (serveHTTP m cache reqPath).cacheAfter reqPath).status = r.statusCode ∧
    (serveHTTP m (serveHTTP m cache reqPath).cacheAfter reqPath).header = r.header ∧
    (serveHTTP m (serveHTTP m cache reqPath).cacheAfter reqPath).body = r.body ∧
    (∀ c : CacheDir ε, (serveHTTP m c reqPath).xCache = "miss" ↔
      c (httpDirFullPath (pathClean reqPath)) = none) := by
  have h1 : tryServeFile m cache (pathClean reqPath) = .error .notExist := by
    simp [tryServeFile, hmiss]
  have hfetch : doCacheFetch m cache (pathClean reqPath) =
      some (cacheWrite cache (httpDirFullPath (pathClean reqPath)) (m.serialize r)) := by
    simp [doCacheFetch, horigin]
  have h2 : tryServeFile m
      (cacheWrite cache (httpDirFullPath (pathClean reqPath)) (m.serialize r))
      (pathClean reqPath) = .ok r := by
    simp [tryServeFile, cacheWrite, hround]
  have hs1 : serveHTTP m cache reqPath =
      { xCache := "miss", status := r.statusCode, header := r.header, body := r.body,
        cacheAfter := cacheWrite cache (httpDirFullPath (pathClean reqPath)) (m.serialize r),
        fetchCount := 1, lookupCount := 2 } := by
    simp only [serveHTTP, h1, hfetch, h2]
  have hs2 : serveHTTP m
      (cacheWrite cache (httpDirFullPath (pathClean reqPath)) (m.serialize r)) reqPath =
      { xCache := "hit", status := r.statusCode, header := r.header, body := r.body,
        cacheAfter := cacheWrite cache (httpDirFullPath (pathClean reqPath)) (m.serialize r),
        fetchCount := 0, lookupCount := 1 } := by
    simp only [serveHTTP, h2]
  refine ⟨by rw [hs1], by rw [hs1], by rw [hs1], by rw [hs1], by rw [hs1],
    by rw [hs1]; simp [cacheWrite], by rw [hs1, hs2], by rw [hs1, hs2],
    by rw [hs1, hs2], by rw [hs1, hs2], by rw [hs1, hs2], ?_⟩
  intro c
  constructor
  · intro hx
    by_contra hne
    obtain ⟨e, he⟩ := Option.ne_none_iff_exists'.mp hne
    cases hp : m.parse e with
    | none =>
      have ht : tryServeFile m c (pathClean reqPath) = .error .parseError := by
        simp [tryServeFile, he, hp]
      rw [serveHTTP] at hx
      simp only [ht] at hx
      exact absurd hx (by decide)
    | some r2 =>
      have ht : tryServeFile m c (pathClean reqPath) = .ok r2 := by
        simp [tryServeFile, he, hp]
      rw [serveHTTP] at hx
      simp only [ht] at hx
      exact absurd hx (by decide)
  · intro hnone
    have ht : tryServeFile m c (pathClean reqPath) = .error .notExist := by
      simp [tryServeFile, hnone]
    cases hdc : doCacheFetch m c (pathClean reqPath) with
    | none => simp only [serveHTTP, ht, hdc]
    | some c2 =>
      cases ht2 : tryServeFile m c2 (pathClean reqPath) with
      | ok r2 => simp only [serveHTTP, ht, hdc, ht2]
      | error e2 => cases e2 <;> simp only [serveHTTP, ht, hdc, ht2]

/-- C2 (witness): the miss/fetch/store/replay cycle evaluated on a
concrete empty cache and a constant origin. -/
theorem claim_C2_witness :
    (serveHTTP (witnessModel witnessResponse) emptyCache "/v1/app.css").xCache = "miss" ∧
    (serveHTTP (witnessModel witnessResponse) emptyCache "/v1/app.css").fetchCount = 1 ∧
    (serveHTTP (witnessModel witnessResponse) emptyCache "/v1/app.css").body =
      witnessResponse.body ∧
    (serveHTTP (witnessModel witnessResponse)
      (serveHTTP (witnessModel witnessResponse) emptyCache "/v1/app.css").cacheAfter
      "/v1/app.css").xCache = "hit" ∧
    (serveHTTP (witnessModel witnessResponse)
      (serveHTTP (witnessModel witnessResponse) emptyCache "/v1/app.css").cacheAfter
      "/v1/app.css").fetchCount = 0 ∧
    (serveHTTP (witnessModel witnessResponse)
      (serveHTTP (witnessModel witnessResponse) emptyCache "/v1/app.css").cacheAfter
      "/v1/app.css").status = witnessResponse.statusCode ∧
    (serveHTTP (witnessModel witnessResponse)
      (serveHTTP (witnessModel witnessResponse) emptyCache "/v1/app.css").cacheAfter
      "/v1/app.css").body = witnessResponse.body := by
  obtain ⟨a1, a2, -, -, a5, -, b1, b2, b3, -, b5, -⟩ :=
    claim_C2 (witnessModel witnessResponse) emptyCache "/v1/app.css" witnessResponse
      rfl rfl rfl
  exact ⟨a1, a2, a5, b1, b2, b3, b5⟩

/-- C4: on a cache miss the origin fetch happens synchronously within
the request (exactly one fetch); if the fetch fails the request ends as
a bare 500 with an empty body and no retry of the lookup; if the fetch
succeeds the lookup is retried exactly once, and a failure to parse what
was stored is again a bare 500 with an empty body. -/
theorem claim_C4 {ε : Type} (m : FileServerModel ε) (cache : CacheDir ε)
    (reqPath : String)
    (hmiss : cache (httpDirFullPath (pathClean reqPath)) = none) :
    (serveHTTP m cache reqPath).fetchCount = 1 ∧
    (m.origin (pathJoin m.sourcePath (pathClean reqPath)) = none →
      (serveHTTP m cache reqPath).status = 500 ∧
      (serveHTTP m cache reqPath).body = [] ∧
      (serveHTTP m cache reqPath).header = [] ∧
      (serveHTTP m cache reqPath).lookupCount = 1) ∧
    (∀ r, m.origin (pathJoin m.sourcePath (pathClean reqPath)) = some r →
      (serveHTTP m cache reqPath).lookupCount = 2 ∧
      (m.parse (m.serialize r) = none →
        (serveHTTP m cache reqPath).status = 500 ∧
        (serveHTTP m cache reqPath).body = [] ∧
        (serveHTTP m cache reqPath).header = [])) := by
  have h1 : tryServeFile m cache (pathClean reqPath) = .error .notExist := by
    simp [tryServeFile, hmiss]
  cases horigin : m.origin (pathJoin m.sourcePath (pathClean reqPath)) with
  | none =>
    have hdc : doCacheFetch m cache (pathClean reqPath) = none := by
      simp [doCacheFetch, horigin]
    have hs : serveHTTP m cache reqPath =
        { xCache := "miss", status := 500, header := [], body := [],
          cacheAfter := cache, fetchCount := 1, lookupCount := 1 } := by
      simp only [serveHTTP, h1, hdc]
    refine ⟨by rw [hs], fun _ => ⟨by rw [hs], by rw [hs], by rw [hs], by rw [hs]⟩,
      fun r hr => Option.noConfusion hr⟩
  | some r0 =>
    have hdc : doCacheFetch m cache (pathClean reqPath) =
        some (cacheWrite cache (httpDirFullPath (pathClean reqPath)) (m.serialize r0)) := by
      simp [doCacheFetch, horigin]
    cases hp : m.parse (m.serialize r0) with
    | none =>
      have ht2 : tryServeFile m
          (cacheWrite cache (httpDirFullPath (pathClean reqPath)) (m.serialize r0))
          (pathClean reqPath) = .error .parseError := by
        simp [tryServeFile, cacheWrite, hp]
      have hs : serveHTTP m cache reqPath =
          { xCache := "miss", status := 500, header := [], body := [],
            cacheAfter :=
              cacheWrite cache (httpDirFullPath (pathClean reqPath)) (m.serialize r0),
            fetchCount := 1, lookupCount := 2 } := by
        simp only [serveHTTP, h1, hdc, ht2]
      refine ⟨by rw [hs], fun h => Option.noConfusion h, fun r hr => ?_⟩
      obtain rfl : r0 = r := Option.some.inj hr
      exact ⟨by rw [hs], fun _ => ⟨by rw [hs], by rw [hs], by rw [hs]⟩⟩
    | some r1 =>
      have ht2 : tryServeFile m
          (cacheWrite cache (httpDirFullPath (pathClean reqPath)) (m.serialize r0))
          (pathClean reqPath) = .ok r1 := by
        simp [tryServeFile, cacheWrite, hp]
      have hs : serveHTTP m cache reqPath =
          { xCache := "miss", status := r1.statusCode, header := r1.header,
            body := r1.body,
            cacheAfter :=
              cacheWrite cache (httpDirFullPath (pathClean reqPath)) (m.serialize r0),
            fetchCount := 1, lookupCount := 2 } := by
        simp only [serveHTTP, h1, hdc, ht2]
      refine ⟨by rw [hs], fun h => Option.noConfusion h, fun r hr => ?_⟩
      obtain rfl : r0 = r := Option.some.inj hr
      exact ⟨by rw [hs], fun hbad => by rw [hp] at hbad; exact Option.noConfusion hbad⟩

/-- C4 (witness): a failed origin fetch on an empty cache yields one
fetch attempt and an opaque empty-bodied 500; a successful fetch whose
stored bytes cannot be parsed also yields a 500 after exactly one retry
of the lookup. -/
theorem claim_C4_witness :
    (serveHTTP witnessFailModel emptyCache "/v1/app.css").fetchCount = 1 ∧
    (serveHTTP witnessFailModel emptyCache "/v1/app.css").status = 500 ∧
    (serveHTTP witnessFailModel emptyCache "/v1/app.css").body = [] ∧
    (serveHTTP witnessBadParseModel emptyCache "/v1/app.css").lookupCount = 2 ∧
    (serveHTTP witnessBadParseModel emptyCache "/v1/app.css").status = 500 ∧
    (serveHTTP witnessBadParseModel emptyCache "/v1/app.css").body = [] := by
  obtain ⟨a1, a2, -⟩ := claim_C4 witnessFailModel emptyCache "/v1/app.css" rfl
  obtain ⟨a2a, a2b, -, -⟩ := a2 rfl
  obtain ⟨-, -, b3⟩ := claim_C4 witnessBadParseModel emptyCache "/v1/app.css" rfl
  obtain ⟨b3a, b3b⟩ := b3 witnessResponse rfl
  obtain ⟨b3c, b3d, -⟩ := b3b rfl
  exact ⟨a1, a2a, a2b, b3a, b3c, b3d⟩

/-- C5: when the cache entry exists but cannot be parsed as a serialized
HTTP response, the request fails with a bare 500 and the origin is never
contacted — the parse failure is not treated as a miss. -/
theorem claim_C5 {ε : Type} (m : FileServerModel ε) (cache : CacheDir ε)
    (reqPath : String) (e : ε)
    (hentry : cache (httpDirFullPath (pathClean reqPath)) = some e)
    (hbad : m.parse e = none) :
    (serveHTTP m cache reqPath).status = 500 ∧
    (serveHTTP m cache reqPath).body = [] ∧
    (serveHTTP m cache reqPath).header = [] ∧
    (serveHTTP m cache reqPath).fetchCount = 0 ∧
    (serveHTTP m cache reqPath).xCache = "hit" ∧
    (serveHTTP m cache reqPath).cacheAfter = cache := by
  have ht : tryServeFile m cache (pathClean reqPath) = .error .parseError := by
    simp [tryServeFile, hentry, hbad]
  have hs : serveHTTP m cache reqPath =
      { xCache := "hit", status := 500, header := [], body := [],
        cacheAfter := cache, fetchCount := 0, lookupCount := 1 } := by
    simp only [serveHTTP, ht]
  exact ⟨by rw [hs], by rw [hs], by rw [hs], by rw [hs], by rw [hs], by rw [hs]⟩

/-- C5 (witness): a corrupt stored entry produces a 500 with no origin
fetch (X-Cache still reads "hit"). -/
theorem claim_C5_witness :
    (serveHTTP (witnessModel witnessResponse) corruptCache "/v1/app.css").status = 500 ∧
    (serveHTTP (witnessModel witnessResponse) corruptCache "/v1/app.css").fetchCount = 0 ∧
    (serveHTTP (witnessModel witnessResponse) corruptCache "/v1/app.css").xCache = "hit" := by
  obtain ⟨h1, -, -, h4, h5, -⟩ :=
    claim_C5 (witnessModel witnessResponse) corruptCache "/v1/app.css" none rfl rfl
  exact ⟨h1, h4, h5⟩

/-- C9: doCacheFetch persists whatever response the origin returned —
the status code is never inspected — and reports success; the stored
response, including a non-200 status, is then replayed on this and every
subsequent request for the path. -/
theorem claim_C9 {ε : Type} (m : FileServerModel ε) (cache : CacheDir ε)
    (reqPath : String) (r : Response)
    (horigin : m.origin (pathJoin m.sourcePath (pathClean reqPath)) = some r)
    (hmiss : cache (httpDirFullPath (pathClean reqPath)) = none)
    (hround : m.parse (m.serialize r) = some r) :
    doCacheFetch m cache (pathClean reqPath) =
      some (cacheWrite cache (httpDirFullPath (pathClean reqPath)) (m.serialize r)) ∧
    (serveHTTP m cache reqPath).status = r.statusCode ∧
    (serveHTTP m (serveHTTP m cache reqPath).cacheAfter reqPath).status = r.statusCode ∧
    (serveHTTP m (serveHTTP m cache reqPath).cacheAfter reqPath).fetchCount = 0 := by
  have h1 : tryServeFile m cache (pathClean reqPath) = .error .notExist := by
    simp [tryServeFile, hmiss]
  have hfetch : doCacheFetch m cache (pathClean reqPath) =
      some (cacheWrite cache (httpDirFullPath (pathClean reqPath)) (m.serialize r)) := by
    simp [doCacheFetch, horigin]
  have h2 : tryServeFile m
      (cacheWrite cache (httpDirFullPath (pathClean reqPath)) (m.serialize r))
      (pathClean reqPath) = .ok r := by
    simp [tryServeFile, cacheWrite, hround]
  have hs1 : serveHTTP m cache reqPath =
      { xCache := "miss", status := r.statusCode, header := r.header, body := r.body,
        cacheAfter := cacheWrite cache (httpDirFullPath (pathClean reqPath)) (m.serialize r),
        fetchCount := 1, lookupCount := 2 } := by
    simp only [serveHTTP, h1, hfetch, h2]
  have hs2 : serveHTTP m
      (cacheWrite cache (httpDirFullPath (pathClean reqPath)) (m.serialize r)) reqPath =
      { xCache := "hit", status := r.statusCode, header := r.header, body := r.body,
        cacheAfter := cacheWrite cache (httpDirFullPath (pathClean reqPath)) (m.serialize r),
        fetchCount := 0, lookupCount := 1 } := by
    simp only [serveHTTP, h2]
  exact ⟨hfetch, by rw [hs1], by rw [hs1, hs2], by rw [hs1, hs2]⟩

/-- C9 (witness): a 404 origin response is persisted and replayed as a
404, with no origin fetch on the replay. -/
theorem claim_C9_witness :
    (serveHTTP (witnessModel witnessResponse404) emptyCache "/v1/gone.css").status = 404 ∧
    (serveHTTP (witnessModel witnessResponse404)
      (serveHTTP (witnessModel witnessResponse404) emptyCache "/v1/gone.css").cacheAfter
      "/v1/gone.css").status = 404 ∧
    (serveHTTP (witnessModel witnessResponse404)
      (serveHTTP (witnessModel witnessResponse404) emptyCache "/v1/gone.css").cacheAfter
      "/v1/gone.css").fetchCount = 0 := by
  obtain ⟨-, h2, h3, h4⟩ :=
    claim_C9 (witnessModel witnessResponse404) emptyCache "/v1/gone.css" witnessResponse404
      rfl rfl rfl
  exact ⟨h2, h3, h4⟩

/-! ## Claim theorems: dev-path forwarding -/

/-- C7 (counterexample): an unparsable dev-path target (such as ":",
which url.Parse rejects with "missing protocol scheme") is routed through
doError and answered with the generic 500, not 502 Bad Gateway. -/
theorem claim_C7_counterexample :
    proxyPaths (fun t => !(t == ":")) (fun _ _ => true)
      [{ Prefix := "/dev", Target := ":" }] "/dev/app" = .errorStatus 500 ∧
    proxyPaths (fun t => !(t == ":")) (fun _ _ => true)
      [{ Prefix := "/dev", Target := ":" }] "/dev/app" ≠ .errorStatus 502 :=
  ⟨by decide, by decide⟩

/-- C7 (amended): for a request matching a configured dev-path prefix, an
upstream fetch failure is surfaced as 502 Bad Gateway, but an unparsable
target URL is surfaced through the generic error path as a 500. -/
theorem claim_C7_amended (parseOk : String → Bool) (upstreamOk : String → String → Bool)
    (cfg : ProxyConfig) (rest : List ProxyConfig) (reqPath : String)
    (hmatch : startsWithStr reqPath cfg.Prefix = true) :
    (parseOk cfg.Target = false →
      proxyPaths parseOk upstreamOk (cfg :: rest) reqPath = .errorStatus 500) ∧
    (parseOk cfg.Target = true → upstreamOk cfg.Target reqPath = false →
      proxyPaths parseOk upstreamOk (cfg :: rest) reqPath = .errorStatus 502) ∧
    (parseOk cfg.Target = true → upstreamOk cfg.Target reqPath = true →
      proxyPaths parseOk upstreamOk (cfg :: rest) reqPath = .proxied cfg.Target) := by
  refine ⟨fun hp => ?_, fun hp hu => ?_, fun hp hu => ?_⟩ <;>
    simp [proxyPaths, hmatch, hp]
  · simp [hu]
  · simp [hu]

/-- C7 (witness): the amended claim evaluated on a concrete matching
config for both error shapes and the success shape. -/
theorem claim_C7_witness :
    proxyPaths (fun _ => false) (fun _ _ => true)
      [{ Prefix := "/dev", Target := ":" }] "/dev/app" = .errorStatus 500 ∧
    proxyPaths (fun _ => true) (fun _ _ => false)
      [{ Prefix := "/dev", Target := "http://localhost:3000" }] "/dev/app" =
      .errorStatus 502 ∧
    proxyPaths (fun _ => true) (fun _ _ => true)
      [{ Prefix := "/dev", Target := "http://localhost:3000" }] "/dev/app" =
      .proxied "http://localhost:3000" :=
  ⟨((claim_C7_amended (fun _ => false) (fun _ _ => true)
      { Prefix := "/dev", Target := ":" } [] "/dev/app" (by decide)).1 rfl),
    ((claim_C7_amended (fun _ => true) (fun _ _ => false)
      { Prefix := "/dev", Target := "http://localhost:3000" } [] "/dev/app"
      (by decide)).2.1 rfl rfl),
    ((claim_C7_amended (fun _ => true) (fun _ _ => true)
      { Prefix := "/dev", Target := "http://localhost:3000" } [] "/dev/app"
      (by decide)).2.2 rfl rfl)⟩

end SpaProxy

section Scratch
open SpaProxy
example : pathClean "/abc//./../def" = "/def" := by decide
example : pathClean "abc/../../ghi" = "../ghi" := by decide
example : pathClean "" = "." := by decide
example : pathClean "/" = "/" := by decide
example : pathClean "/../a" = "/a" := by decide
example : pathClean "a/../" = "." := by decide
example : pathJoin ".." "/index.html" = "../index.html" := by decide
example : pathExt "/style.css" = ".css" := by decide
example : pathExt "/sub/app" = "" := by decide
example : pathExt "/" = "" := by decide
example : pathEscape ".." = ".." := by decide
example : pathEscape "a/b" = "a%2Fb" := by decide
example : pathEscape "v1.2" = "v1.2" := by decide

-- the cases of TestVersionSwitch in main_test.go
example : (versionSwitch "default" 0 "" none "/index.html").newPath = "/default/index.html" := by decide
example : (versionSwitch "default" 0 "" none "/index.html").setCookie = none := by decide
example : (versionSwitch "default" 0 "v1" none "/index.html").newPath = "/v1/index.html" := by decide
example : ((versionSwitch "default" 0 "v1" none "/index.html").setCookie.map Cookie.value) = some "v1" := by decide
example : (versionSwitch "default" 0 "" (some "v1") "/style.css").newPath = "/v1/style.css" := by decide
example : (versionSwitch "default" 0 "v2" (some "v1") "/style.css").newPath = "/v2/style.css" := by decide
example : ((versionSwitch "default" 0 "v2" (some "v1") "/style.css").setCookie.map Cookie.value) = some "v2" := by decide
example : (versionSwitch "default" 0 ".." none "/index.html").newPath = "/index.html" := by decide
example : ((versionSwitch "default" 0 ".." none "/index.html").setCookie.map Cookie.value) = some ".." := by decide

-- the cases of TestAppRewrite in main_test.go
example : appRewrite "/" = "/index.html" := by decide
example : appRewrite "/index.html" = "/index.html" := by decide
example : appRewrite "/style.css" = "/style.css" := by decide
example : appRewrite "/billing.html" = "/billing.html" := by decide
example : appRewrite "/sub/app" = "/index.html" := by decide
example : appRewrite "/sub/app/" = "/index.html" := by decide
end Scratch
